import Mathlib

/-!
Verification of the link-shortener core: the `links` table (src/db/schema.ts),
the data-access layer (src/data/links.ts), the server actions for
create/edit/delete (the server-action module), the dashboard listing, and the
public redirect route handler.

Modelling conventions:
- Timestamps are naturals (an abstract clock); `new Date()` at a call site
  becomes an explicit `now : Nat` argument.
- The Postgres table is a `Store`: a list of rows plus the identity counter
  backing `generatedAlwaysAsIdentity`.  The uniqueness constraint on
  `short_code` is enforced at each write, as Postgres does: a violating
  insert/update raises an error whose message contains the word "unique"
  (modelled by `StoreError.uniqueViolation`); the catch blocks of the actions test
  `error.message.includes("unique")`, modelled by matching that constructor.
- `z.string().url()` delegates to the host URL parser; it is taken as an
  external predicate `urlOk : String → Bool` passed to the actions.
- `z.number()` applied to an already-numeric field never fails, so the `id`
  field contributes no validation branch.
-/

/-- A row of the `links` table (src/db/schema.ts). -/
structure LinkRec where
  id : Nat
  userId : String
  shortCode : String
  url : String
  createdAt : Nat
  updatedAt : Nat
deriving Repr, DecidableEq

/-- The `links` table plus the sequence behind `generatedAlwaysAsIdentity`. -/
structure Store where
  links : List LinkRec
  nextId : Nat
deriving Repr, DecidableEq

/-- Errors surfaced by the store.  `uniqueViolation` is the Postgres
duplicate-key error on the `short_code` unique constraint (its message
contains "unique"); `other` carries any other error message through. -/
inductive StoreError where
  | uniqueViolation
  | other (msg : String)
deriving Repr, DecidableEq

/-- Embeds `insertLink` (src/data/links.ts): `db.insert(links).values(data).returning()`.
The store rejects the insert when the `shortCode` is already present (the
unique constraint); otherwise the row is appended with a fresh identity and
`createdAt = updatedAt = now` (both columns `defaultNow()`). -/
def insertLink (st : Store) (userId url shortCode : String) (now : Nat) :
    Except StoreError (LinkRec × Store) :=
  if st.links.any (fun l => l.shortCode == shortCode) then
    .error .uniqueViolation
  else
    let newLink : LinkRec := ⟨st.nextId, userId, shortCode, url, now, now⟩
    .ok (newLink, ⟨st.links ++ [newLink], st.nextId + 1⟩)

/-- The row transform of the `update ... set` clause in `updateLink`: rows
matching both `id` and `userId` get the new `url`/`shortCode` and a fresh
`updatedAt`; all other rows are untouched. -/
def patchRow (id : Nat) (userId url shortCode : String) (now : Nat) (l : LinkRec) : LinkRec :=
  if l.id == id && l.userId == userId then
    { l with url := url, shortCode := shortCode, updatedAt := now }
  else l

/-- Embeds `updateLink` (src/data/links.ts): first a `select` scoped to `id` and
`userId` ("Verify ownership first"); if no row matches, return `null`.
Otherwise `db.update(links).set(url, shortCode, updatedAt = now)` with the
same `id`/`userId` predicate, `.returning()` the updated row.  The update
violates the unique constraint exactly when the new `shortCode` already sits
on a row with a different `id`. -/
def updateLink (st : Store) (id : Nat) (userId url shortCode : String) (now : Nat) :
    Except StoreError (Option LinkRec × Store) :=
  match st.links.find? (fun l => l.id == id && l.userId == userId) with
  | none => .ok (none, st)
  | some existing =>
    if st.links.any (fun l => l.shortCode == shortCode && l.id != id) then
      .error .uniqueViolation
    else
      .ok (some { existing with url := url, shortCode := shortCode, updatedAt := now },
           ⟨st.links.map (patchRow id userId url shortCode now), st.nextId⟩)

/-- Embeds `deleteLinkById` (src/data/links.ts): a `select` scoped to `id` and
`userId` ("Check ownership"); `false` if no row matches, otherwise
`db.delete(links)` with the same predicate and `true`. -/
def deleteLinkById (st : Store) (id : Nat) (userId : String) : Bool × Store :=
  match st.links.find? (fun l => l.id == id && l.userId == userId) with
  | none => (false, st)
  | some _ =>
      (true, ⟨st.links.filter (fun l => !(l.id == id && l.userId == userId)), st.nextId⟩)

/-- Embeds `getUserLinks` (src/data/links.ts): `select ... where userId = ?
orderBy desc(updatedAt)` — the rows of the caller, most recently touched first. -/
def getUserLinks (st : Store) (userId : String) : List LinkRec :=
  (st.links.filter (fun l => l.userId == userId)).mergeSort
    (fun a b => decide (b.updatedAt ≤ a.updatedAt))

/-- Modelled from the spec: `getLinkByShortCode` is imported by the redirect
route handler from the data layer, but its definition is not among the source
files; the spec describes it as the store operation `findByShortCode(code)` →
"returns the Link or not found", with no ownership check. -/
def getLinkByShortCode (st : Store) (code : String) : Option LinkRec :=
  st.links.find? (fun l => l.shortCode == code)

/-- The `ActionResult<T>` discriminated union of the server actions. -/
inductive ActionResult (α : Type) where
  | success (data : α)
  | failure (error : String)
deriving Repr, DecidableEq

/-- Input shape of `createLink`. -/
structure CreateLinkInput where
  url : String
  shortCode : String
deriving Repr, DecidableEq

/-- Input shape of `editLink`. -/
structure EditLinkInput where
  id : Nat
  url : String
  shortCode : String
deriving Repr, DecidableEq

/-- Whether a character is admitted by the zod regex `[a-zA-Z0-9-_]`. -/
def isShortCodeChar (c : Char) : Bool :=
  (('a' ≤ c && c ≤ 'z') || ('A' ≤ c && c ≤ 'Z') || ('0' ≤ c && c ≤ '9')
    || c == '-' || c == '_')

/-- The `shortCode` field of `createLinkSchema`: zod runs `.min(3)`,
`.max(20)`, then `.regex(...)` in order and `issues[0]` reports the first
failure; `none` means the field validates. -/
def shortCodeCheck (s : String) : Option String :=
  if s.length < 3 then some "Short code must be at least 3 characters"
  else if 20 < s.length then some "Short code must be at most 20 characters"
  else if !(s.data.all isShortCodeChar) then
    some "Short code can only contain letters, numbers, hyphens, and underscores"
  else none

/-- Embeds `createLinkSchema.safeParse`: zod reports issues in field order, `url`
before `shortCode`; `issues[0].message` is returned on failure. -/
def validateCreate (urlOk : String → Bool) (input : CreateLinkInput) : Option String :=
  if !urlOk input.url then some "Invalid URL format"
  else shortCodeCheck input.shortCode

/-- Embeds `editLinkSchema = createLinkSchema.extend(id: z.number())`: the `url` and
`shortCode` rules are the very same schema; `z.number()` on the numeric `id`
never fails. -/
def validateEdit (urlOk : String → Bool) (input : EditLinkInput) : Option String :=
  validateCreate urlOk ⟨input.url, input.shortCode⟩

/-- Embeds the `createLink` server action: authenticate (no user id → "Unauthorized",
before any store access), validate, then `insertLink`; a caught error whose
message includes "unique" becomes the short-code-taken message, any other
error message passes through. -/
def createLink (urlOk : String → Bool) (authUserId : Option String)
    (input : CreateLinkInput) (st : Store) (now : Nat) :
    ActionResult LinkRec × Store :=
  match authUserId with
  | none => (.failure "Unauthorized", st)
  | some userId =>
    match validateCreate urlOk input with
    | some msg => (.failure msg, st)
    | none =>
      match insertLink st userId input.url input.shortCode now with
      | .ok (newLink, st') => (.success newLink, st')
      | .error .uniqueViolation =>
          (.failure "This short code is already in use. Please try another one.", st)
      | .error (.other msg) => (.failure msg, st)

/-- Embeds the `editLink` server action: authenticate, validate, then `updateLink`;
`null` from the data layer becomes the not-found-or-not-owned failure, a
caught "unique" error becomes the short-code-taken message. -/
def editLink (urlOk : String → Bool) (authUserId : Option String)
    (input : EditLinkInput) (st : Store) (now : Nat) :
    ActionResult LinkRec × Store :=
  match authUserId with
  | none => (.failure "Unauthorized", st)
  | some userId =>
    match validateEdit urlOk input with
    | some msg => (.failure msg, st)
    | none =>
      match updateLink st input.id userId input.url input.shortCode now with
      | .ok (none, st') => (.failure "Link not found or not owned by user", st')
      | .ok (some updated, st') => (.success updated, st')
      | .error .uniqueViolation =>
          (.failure "This short code is already in use. Please try another one.", st)
      | .error (.other msg) => (.failure msg, st)

/-- Embeds the `deleteLinkAction` server action: authenticate, validate the numeric `id`
(which never fails), then `deleteLinkById`; `false` becomes the
not-found-or-not-owned failure. -/
def deleteLinkAction (authUserId : Option String) (id : Nat) (st : Store) :
    ActionResult (Option LinkRec) × Store :=
  match authUserId with
  | none => (.failure "Unauthorized", st)
  | some userId =>
    match deleteLinkById st id userId with
    | (false, st') => (.failure "Link not found or not owned by user", st')
    | (true, st') => (.success none, st')

/-- Responses the redirect route handler can produce: a redirect with a
status code, or a JSON error body (a single `error` field) with a status. -/
inductive RouteResponse where
  | redirect (url : String) (status : Nat)
  | jsonError (errorField : String) (status : Nat)
deriving Repr, DecidableEq

/-- The `GET` route handler: look the short code up; not found → status 404
with JSON error field "Link not found"; found → `NextResponse.redirect(url, 307)`. -/
def GET (st : Store) (shortcode : String) : RouteResponse :=
  match getLinkByShortCode st shortcode with
  | none => .jsonError "Link not found" 404
  | some link => .redirect link.url 307

/-- The SQL statements the data layer issues against the store, keeping only
their row predicates: a select scoped to `id` and `userId`, an update scoped
to `id` and `userId`, a delete scoped to `id` and `userId`. -/
inductive DbOp where
  | selectByIdUser (id : Nat) (userId : String)
  | updateWhereIdUser (id : Nat) (userId : String) (url shortCode : String)
  | deleteWhereIdUser (id : Nat) (userId : String)
deriving Repr, DecidableEq

/-- Whether a statement mutates the store (selects do not). -/
def DbOp.isWrite : DbOp → Bool
  | .selectByIdUser _ _ => false
  | .updateWhereIdUser _ _ _ _ => true
  | .deleteWhereIdUser _ _ => true

/-- The statement sequence `updateLink` issues: always the ownership-check
select first, then — only when that select found a row — the scoped update. -/
def updateLinkOps (st : Store) (id : Nat) (userId url shortCode : String) : List DbOp :=
  DbOp.selectByIdUser id userId ::
    (match st.links.find? (fun l => l.id == id && l.userId == userId) with
     | none => []
     | some _ => [DbOp.updateWhereIdUser id userId url shortCode])

/-- The statement sequence `deleteLinkById` issues: the ownership-check
select first, then — only when that select found a row — the scoped delete. -/
def deleteLinkByIdOps (st : Store) (id : Nat) (userId : String) : List DbOp :=
  DbOp.selectByIdUser id userId ::
    (match st.links.find? (fun l => l.id == id && l.userId == userId) with
     | none => []
     | some _ => [DbOp.deleteWhereIdUser id userId])

/-- A store-level mutation: the three data-layer writes with their inputs. -/
inductive StoreOp where
  | create (userId url shortCode : String) (now : Nat)
  | edit (id : Nat) (userId url shortCode : String) (now : Nat)
  | remove (id : Nat) (userId : String)
deriving Repr, DecidableEq

/-- The store state after one data-layer call (a failed call leaves the
store as it was). -/
def applyOp (st : Store) : StoreOp → Store
  | .create userId url shortCode now =>
    match insertLink st userId url shortCode now with
    | .ok (_, st') => st'
    | .error _ => st
  | .edit id userId url shortCode now =>
    match updateLink st id userId url shortCode now with
    | .ok (_, st') => st'
    | .error _ => st
  | .remove id userId => (deleteLinkById st id userId).2

/-- The store state after a sequence of data-layer calls. -/
def runOps (st : Store) (ops : List StoreOp) : Store :=
  ops.foldl applyOp st

/-- No two rows share a `shortCode` (the `short_code` unique constraint). -/
def UniqueCodes (ls : List LinkRec) : Prop :=
  ls.Pairwise (fun a b => a.shortCode ≠ b.shortCode)

/-- No two rows share an `id` (the primary key). -/
def UniqueIds (ls : List LinkRec) : Prop :=
  ls.Pairwise (fun a b => a.id ≠ b.id)

/-- The `id` of every row is below the identity counter, so fresh ids are fresh. -/
def IdsBelow (st : Store) : Prop :=
  ∀ l ∈ st.links, l.id < st.nextId

/-- The representation invariant of the store: distinct short codes, distinct
primary keys, identity counter ahead of every row. -/
def StoreInv (st : Store) : Prop :=
  UniqueCodes st.links ∧ UniqueIds st.links ∧ IdsBelow st

instance : DecidablePred UniqueCodes := fun ls =>
  List.instDecidablePairwise ls

instance : DecidablePred UniqueIds := fun ls =>
  List.instDecidablePairwise ls

instance (st : Store) : Decidable (IdsBelow st) :=
  List.decidableBAll _ st.links

instance (st : Store) : Decidable (StoreInv st) :=
  instDecidableAnd

/-- A two-user, two-row store used to instantiate the theorems below. -/
def demoStore : Store :=
  ⟨[⟨1, "userA", "abc", "https://a.com", 5, 5⟩,
    ⟨2, "userB", "xyz", "https://b.com", 6, 6⟩], 3⟩

/-- A URL validator accepting everything, used to instantiate the theorems
below (the actions are parametric in the external URL predicate). -/
def anyUrl : String → Bool := fun _ => true

/-- C2: a create, edit, or delete call with no authenticated user id returns
the "Unauthorized" failure and leaves the store exactly as it was; the
authentication check precedes any store access. -/
theorem unauthenticated_calls_fail_without_mutation :
    ∀ (urlOk : String → Bool) (cin : CreateLinkInput) (ein : EditLinkInput)
      (id : Nat) (st : Store) (now : Nat),
      createLink urlOk none cin st now = (.failure "Unauthorized", st)
      ∧ editLink urlOk none ein st now = (.failure "Unauthorized", st)
      ∧ deleteLinkAction none id st = (.failure "Unauthorized", st) :=
  fun _ _ _ _ _ _ => ⟨rfl, rfl, rfl⟩

/-- C5: the shared `shortCode` schema accepts a code exactly when its length
lies in [3, 20] and every character is a letter, digit, hyphen or
underscore; length 2 and length 21 are rejected with the corresponding
validation message, lengths 3 and 20 are accepted; edit validation is the
create schema extended with the (never-failing) numeric `id`, so both
actions apply the same `url`/`shortCode` rules. -/
theorem shortCode_validation_contract :
    (∀ s : String, shortCodeCheck s = none ↔
        (3 ≤ s.length ∧ s.length ≤ 20 ∧ ∀ c ∈ s.data, isShortCodeChar c = true))
    ∧ shortCodeCheck "ab" = some "Short code must be at least 3 characters"
    ∧ shortCodeCheck "abc" = none
    ∧ shortCodeCheck "aaaaaaaaaaaaaaaaaaaa" = none
    ∧ shortCodeCheck "aaaaaaaaaaaaaaaaaaaaa"
        = some "Short code must be at most 20 characters"
    ∧ (∀ (urlOk : String → Bool) (ein : EditLinkInput),
        validateEdit urlOk ein = validateCreate urlOk ⟨ein.url, ein.shortCode⟩)
    ∧ (∀ (urlOk : String → Bool) (cin : CreateLinkInput),
        urlOk cin.url = true → validateCreate urlOk cin = shortCodeCheck cin.shortCode) := by
  refine ⟨fun s => ?_, by decide, by decide, by decide, by decide,
          fun _ _ => rfl, fun urlOk cin h => ?_⟩
  · unfold shortCodeCheck
    split_ifs with h1 h2 h3
    · simp only [reduceCtorEq, false_iff]
      omega
    · simp only [reduceCtorEq, false_iff]
      omega
    · simp only [reduceCtorEq, false_iff]
      intro hc
      simp only [Bool.not_eq_true'] at h3
      exact absurd (List.all_eq_true.mpr hc.2.2) (by simp [h3])
    · simp only [true_iff]
      simp only [Bool.not_eq_true, Bool.not_eq_false'] at h3
      exact ⟨by omega, by omega, List.all_eq_true.mp h3⟩
  · unfold validateCreate
    rw [h]
    rfl

/-- C5 instance: a concrete create input whose URL passes the external
validator reduces to the shared `shortCode` schema. -/
theorem shortCode_validation_contract_inst :
    validateCreate anyUrl ⟨"https://a.com", "abc"⟩ = shortCodeCheck "abc" :=
  shortCode_validation_contract.2.2.2.2.2.2 anyUrl ⟨"https://a.com", "abc"⟩ rfl

/-- C10: the redirect handler is total over arbitrary short-code strings —
no format validation is applied — and every outcome is either the 307
redirect or the 404 "Link not found" JSON response. -/
theorem resolver_total_two_outcomes :
    ∀ (st : Store) (code : String),
      (∃ u, GET st code = .redirect u 307)
      ∨ GET st code = .jsonError "Link not found" 404 := by
  intro st code
  unfold GET
  cases h : getLinkByShortCode st code with
  | none => exact Or.inr rfl
  | some link => exact Or.inl ⟨link.url, rfl⟩

/-- Under distinct short codes, `find?` on a code returns exactly the member
row carrying that code. -/
theorem find?_shortCode_eq_some {ls : List LinkRec} {l : LinkRec} {code : String}
    (hu : UniqueCodes ls) (hm : l ∈ ls) (hc : l.shortCode = code) :
    ls.find? (fun x => x.shortCode == code) = some l := by
  induction ls with
  | nil => cases hm
  | cons hd tl ih =>
    rcases List.mem_cons.mp hm with heq | htl
    · subst heq
      exact List.find?_cons_of_pos _ (by simp [hc])
    · have hhd : hd.shortCode ≠ code := by
        intro hbad
        exact (List.pairwise_cons.mp hu).1 l htl (hbad.trans hc.symm)
      rw [List.find?_cons_of_neg _ (by simp [hhd])]
      exact ih (List.pairwise_cons.mp hu).2 htl

/-- C4: when a row with the requested short code exists (the store invariant
making it unique), the handler answers a 307 redirect to the stored
URL; when none exists, a 404 with JSON error field "Link not found".  The
handler consults no caller identity. -/
theorem resolver_redirect_or_404 :
    ∀ (st : Store) (code : String),
      (∀ l ∈ st.links, l.shortCode = code → UniqueCodes st.links →
          GET st code = .redirect l.url 307)
      ∧ ((∀ l ∈ st.links, l.shortCode ≠ code) →
          GET st code = .jsonError "Link not found" 404) := by
  intro st code
  constructor
  · intro l hm hc hu
    unfold GET getLinkByShortCode
    rw [find?_shortCode_eq_some hu hm hc]
  · intro hnone
    unfold GET getLinkByShortCode
    rw [List.find?_eq_none.mpr (fun x hx => by simp [hnone x hx])]

/-- C4 instance: the demo store redirects its first code and 404s an unknown
one. -/
theorem resolver_redirect_or_404_inst :
    GET demoStore "abc" = .redirect "https://a.com" 307
    ∧ GET demoStore "nope" = .jsonError "Link not found" 404 := by
  constructor
  · exact (resolver_redirect_or_404 demoStore "abc").1
      ⟨1, "userA", "abc", "https://a.com", 5, 5⟩ (by decide) (by decide) (by decide)
  · exact (resolver_redirect_or_404 demoStore "nope").2 (by decide)

/-- C7 counterexample: `updateLink` and `deleteLinkById` do not perform their
write as a single store operation — on a store where the target row exists,
each issues a separate ownership-check select and only then the scoped
write, so the issued statement sequence is a read followed by a write, not
the single write the claim asserts. -/
theorem update_delete_issue_check_then_write :
    updateLinkOps demoStore 1 "userA" "https://c.com" "newc"
      = [DbOp.selectByIdUser 1 "userA",
         DbOp.updateWhereIdUser 1 "userA" "https://c.com" "newc"]
    ∧ updateLinkOps demoStore 1 "userA" "https://c.com" "newc"
        ≠ [DbOp.updateWhereIdUser 1 "userA" "https://c.com" "newc"]
    ∧ deleteLinkByIdOps demoStore 1 "userA"
        = [DbOp.selectByIdUser 1 "userA", DbOp.deleteWhereIdUser 1 "userA"]
    ∧ deleteLinkByIdOps demoStore 1 "userA" ≠ [DbOp.deleteWhereIdUser 1 "userA"]
    ∧ (DbOp.selectByIdUser 1 "userA").isWrite = false := by
  decide

/-- C7 amended: although a separate ownership-check select precedes the
mutation, every write statement `updateLink` or `deleteLinkById` issues is
scoped to both the `id` and the `userId` of the call, so no row that fails
either condition at write time can be mutated. -/
theorem every_write_scoped_to_id_and_user :
    ∀ (st : Store) (id : Nat) (userId url shortCode : String),
      (∀ op ∈ updateLinkOps st id userId url shortCode,
          op.isWrite = true → op = DbOp.updateWhereIdUser id userId url shortCode)
      ∧ (∀ op ∈ deleteLinkByIdOps st id userId,
          op.isWrite = true → op = DbOp.deleteWhereIdUser id userId) := by
  intro st id userId url shortCode
  constructor
  · intro op hop hw
    unfold updateLinkOps at hop
    rcases List.mem_cons.mp hop with heq | htl
    · rw [heq] at hw; cases hw
    · revert htl
      cases st.links.find? (fun l => l.id == id && l.userId == userId) with
      | none => intro htl; cases htl
      | some _ => intro htl; exact (List.mem_singleton.mp htl)
  · intro op hop hw
    unfold deleteLinkByIdOps at hop
    rcases List.mem_cons.mp hop with heq | htl
    · rw [heq] at hw; cases hw
    · revert htl
      cases st.links.find? (fun l => l.id == id && l.userId == userId) with
      | none => intro htl; cases htl
      | some _ => intro htl; exact (List.mem_singleton.mp htl)

/-- When no row matches both `id` and `userId`, the ownership-check select
finds nothing. -/
theorem find?_idUser_eq_none {ls : List LinkRec} {id : Nat} {uid : String}
    (h : ∀ l ∈ ls, ¬(l.id = id ∧ l.userId = uid)) :
    ls.find? (fun l => l.id == id && l.userId == uid) = none := by
  rw [List.find?_eq_none]
  intro x hx hbad
  simp only [Bool.and_eq_true, beq_iff_eq] at hbad
  exact h x hx hbad

/-- C3: an authenticated, validation-passing edit or delete whose target id
matches no row owned by the caller — whether the id does not exist at all or
belongs to another user — returns the one generic
"Link not found or not owned by user" failure, identical for both
operations and both causes, and leaves the store unchanged. -/
theorem edit_delete_not_found_or_not_owned :
    (∀ (urlOk : String → Bool) (ein : EditLinkInput) (uid : String) (st : Store) (now : Nat),
        validateEdit urlOk ein = none →
        (∀ l ∈ st.links, ¬(l.id = ein.id ∧ l.userId = uid)) →
        editLink urlOk (some uid) ein st now
          = (.failure "Link not found or not owned by user", st))
    ∧ (∀ (uid : String) (id : Nat) (st : Store),
        (∀ l ∈ st.links, ¬(l.id = id ∧ l.userId = uid)) →
        deleteLinkAction (some uid) id st
          = (.failure "Link not found or not owned by user", st)) := by
  constructor
  · intro urlOk ein uid st now hval hown
    simp [editLink, hval, updateLink, find?_idUser_eq_none hown]
  · intro uid id st hown
    simp [deleteLinkAction, deleteLinkById, find?_idUser_eq_none hown]

/-- C3 instance: user B editing or deleting the link of user A with id 1, and deleting
a nonexistent id, all fail the same way with the store untouched. -/
theorem edit_delete_not_found_or_not_owned_inst :
    editLink anyUrl (some "userB") ⟨1, "https://c.com", "newc"⟩ demoStore 7
      = (.failure "Link not found or not owned by user", demoStore)
    ∧ deleteLinkAction (some "userB") 1 demoStore
      = (.failure "Link not found or not owned by user", demoStore)
    ∧ deleteLinkAction (some "userB") 99 demoStore
      = (.failure "Link not found or not owned by user", demoStore) :=
  ⟨edit_delete_not_found_or_not_owned.1 anyUrl ⟨1, "https://c.com", "newc"⟩ "userB"
      demoStore 7 (by decide) (by decide),
   edit_delete_not_found_or_not_owned.2 "userB" 1 demoStore (by decide),
   edit_delete_not_found_or_not_owned.2 "userB" 99 demoStore (by decide)⟩

/-- C6: an authenticated, validation-passing create whose short code is
already present fails — for every caller and every URL — with the
short-code-taken failure and its distinct user-facing message, leaving the
store unchanged; an edit moving an owned link onto a short code held by a
different row fails identically. -/
theorem duplicate_shortCode_rejected :
    (∀ (urlOk : String → Bool) (uid : String) (cin : CreateLinkInput) (st : Store) (now : Nat),
        validateCreate urlOk cin = none →
        (∃ l ∈ st.links, l.shortCode = cin.shortCode) →
        createLink urlOk (some uid) cin st now
          = (.failure "This short code is already in use. Please try another one.", st))
    ∧ (∀ (urlOk : String → Bool) (uid : String) (ein : EditLinkInput) (st : Store) (now : Nat),
        validateEdit urlOk ein = none →
        (∃ l ∈ st.links, l.id = ein.id ∧ l.userId = uid) →
        (∃ l ∈ st.links, l.shortCode = ein.shortCode ∧ l.id ≠ ein.id) →
        editLink urlOk (some uid) ein st now
          = (.failure "This short code is already in use. Please try another one.", st)) := by
  constructor
  · intro urlOk uid cin st now hval htaken
    obtain ⟨l, hm, hc⟩ := htaken
    have hany : st.links.any (fun x => x.shortCode == cin.shortCode) = true :=
      List.any_eq_true.mpr ⟨l, hm, by simp [hc]⟩
    simp [createLink, hval, insertLink, hany]
  · intro urlOk uid ein st now hval howned htaken
    obtain ⟨lo, hlo, hid, huid⟩ := howned
    have hsome : (st.links.find? (fun l => l.id == ein.id && l.userId == uid)).isSome := by
      rw [List.find?_isSome]
      exact ⟨lo, hlo, by simp [hid, huid]⟩
    obtain ⟨ex, hex⟩ := Option.isSome_iff_exists.mp hsome
    obtain ⟨lt, hlt, hcode, hne⟩ := htaken
    have hany : st.links.any (fun x => x.shortCode == ein.shortCode && x.id != ein.id) = true :=
      List.any_eq_true.mpr ⟨lt, hlt, by simp [hcode, hne]⟩
    simp [editLink, hval, updateLink, hex, hany]

/-- C6 instance: user B re-creating the taken code "abc", and user A editing
link 1 onto the user-B code "xyz", both fail with the taken-code message and
an unchanged store. -/
theorem duplicate_shortCode_rejected_inst :
    createLink anyUrl (some "userB") ⟨"https://c.com", "abc"⟩ demoStore 7
      = (.failure "This short code is already in use. Please try another one.", demoStore)
    ∧ editLink anyUrl (some "userA") ⟨1, "https://c.com", "xyz"⟩ demoStore 7
      = (.failure "This short code is already in use. Please try another one.", demoStore) :=
  ⟨duplicate_shortCode_rejected.1 anyUrl "userB" ⟨"https://c.com", "abc"⟩ demoStore 7
      (by decide) ⟨⟨1, "userA", "abc", "https://a.com", 5, 5⟩, by decide, by decide⟩,
   duplicate_shortCode_rejected.2 anyUrl "userA" ⟨1, "https://c.com", "xyz"⟩ demoStore 7
      (by decide) ⟨⟨1, "userA", "abc", "https://a.com", 5, 5⟩, by decide, by decide⟩
      ⟨⟨2, "userB", "xyz", "https://b.com", 6, 6⟩, by decide, by decide⟩⟩

/-- C7 amended, instance: the one write issued by a concrete update call is
the one scoped to its `id` and `userId`. -/
theorem every_write_scoped_to_id_and_user_inst :
    DbOp.updateWhereIdUser 1 "userA" "https://c.com" "newc"
      = DbOp.updateWhereIdUser 1 "userA" "https://c.com" "newc" :=
  (every_write_scoped_to_id_and_user demoStore 1 "userA" "https://c.com" "newc").1
    (DbOp.updateWhereIdUser 1 "userA" "https://c.com" "newc") (by decide) (by decide)

/-- The row transform keeps the primary key. -/
theorem patchRow_id (id : Nat) (uid url code : String) (now : Nat) (l : LinkRec) :
    (patchRow id uid url code now l).id = l.id := by
  unfold patchRow
  split <;> rfl

/-- The row transform keeps `createdAt`. -/
theorem patchRow_createdAt (id : Nat) (uid url code : String) (now : Nat) (l : LinkRec) :
    (patchRow id uid url code now l).createdAt = l.createdAt := by
  unfold patchRow
  split <;> rfl

/-- What a successful `insertLink` is made of: the returned row is the fresh
identity with both timestamps at `now`, the new store appends it and bumps
the counter, and no pre-existing row carried the inserted short code. -/
theorem insertLink_ok_elim {st : Store} {uid url code : String} {now : Nat}
    {lnk : LinkRec} {st' : Store}
    (h : insertLink st uid url code now = .ok (lnk, st')) :
    lnk = ⟨st.nextId, uid, code, url, now, now⟩
    ∧ st' = ⟨st.links ++ [(⟨st.nextId, uid, code, url, now, now⟩ : LinkRec)], st.nextId + 1⟩
    ∧ ∀ l ∈ st.links, l.shortCode ≠ code := by
  unfold insertLink at h
  split at h
  · cases h
  · rename_i hany
    simp only [Except.ok.injEq, Prod.mk.injEq] at h
    refine ⟨h.1.symm, h.2.symm, ?_⟩
    intro l hl hc
    exact hany (List.any_eq_true.mpr ⟨l, hl, by simp [hc]⟩)

/-- What a successful `updateLink` is made of: either the ownership check
found nothing (result `none`, store untouched), or it found the row, the
new short code clashed with no other row, the result is the patched row and
the new store maps the patch over the table. -/
theorem updateLink_ok_elim {st : Store} {id : Nat} {uid url code : String} {now : Nat}
    {r : Option LinkRec} {st' : Store}
    (h : updateLink st id uid url code now = .ok (r, st')) :
    (r = none ∧ st' = st)
    ∨ (∃ existing, st.links.find? (fun l => l.id == id && l.userId == uid) = some existing
        ∧ r = some { existing with url := url, shortCode := code, updatedAt := now }
        ∧ st' = ⟨st.links.map (patchRow id uid url code now), st.nextId⟩
        ∧ ∀ l ∈ st.links, l.shortCode = code → l.id = id) := by
  unfold updateLink at h
  split at h
  · rename_i hfind
    simp only [Except.ok.injEq, Prod.mk.injEq] at h
    exact Or.inl ⟨h.1.symm, h.2.symm⟩
  · rename_i ex hfind
    split at h
    · cases h
    · rename_i hany
      simp only [Except.ok.injEq, Prod.mk.injEq] at h
      refine Or.inr ⟨ex, hfind, h.1.symm, h.2.symm, ?_⟩
      intro l hl hc
      by_contra hne
      exact hany (List.any_eq_true.mpr ⟨l, hl, by simp [hc, hne]⟩)

/-- The store after `deleteLinkById`: untouched, or the table filtered by
the scoped predicate (counter untouched). -/
theorem deleteLinkById_state (st : Store) (id : Nat) (uid : String) :
    (deleteLinkById st id uid).2 = st
    ∨ (deleteLinkById st id uid).2
        = ⟨st.links.filter (fun l => !(l.id == id && l.userId == uid)), st.nextId⟩ := by
  unfold deleteLinkById
  cases st.links.find? (fun l => l.id == id && l.userId == uid) <;> simp

/-- C9: a freshly inserted row has `updatedAt = createdAt`; a successful
update sets `updatedAt` of the returned row to the current time and changes
`createdAt` of no row; and the invariant `createdAt ≤ updatedAt` is
preserved by insert, by update (once the clock is not behind the creation
times of the rows), and by delete. -/
theorem updatedAt_ge_createdAt :
    (∀ (st : Store) (uid url code : String) (now : Nat) (lnk : LinkRec) (st' : Store),
        insertLink st uid url code now = .ok (lnk, st') →
        lnk.updatedAt = lnk.createdAt)
    ∧ (∀ (st : Store) (id : Nat) (uid url code : String) (now : Nat)
          (lnk : LinkRec) (st' : Store),
        updateLink st id uid url code now = .ok (some lnk, st') →
        lnk.updatedAt = now
        ∧ st'.links.map (fun l => l.createdAt) = st.links.map (fun l => l.createdAt))
    ∧ (∀ (st : Store) (uid url code : String) (now : Nat) (lnk : LinkRec) (st' : Store),
        insertLink st uid url code now = .ok (lnk, st') →
        (∀ l ∈ st.links, l.createdAt ≤ l.updatedAt) →
        ∀ l ∈ st'.links, l.createdAt ≤ l.updatedAt)
    ∧ (∀ (st : Store) (id : Nat) (uid url code : String) (now : Nat)
          (r : Option LinkRec) (st' : Store),
        updateLink st id uid url code now = .ok (r, st') →
        (∀ l ∈ st.links, l.createdAt ≤ l.updatedAt) →
        (∀ l ∈ st.links, l.createdAt ≤ now) →
        ∀ l ∈ st'.links, l.createdAt ≤ l.updatedAt)
    ∧ (∀ (st : Store) (id : Nat) (uid : String),
        (∀ l ∈ st.links, l.createdAt ≤ l.updatedAt) →
        ∀ l ∈ (deleteLinkById st id uid).2.links, l.createdAt ≤ l.updatedAt) := by
  refine ⟨?_, ?_, ?_, ?_, ?_⟩
  · intro st uid url code now lnk st' h
    rw [(insertLink_ok_elim h).1]
  · intro st id uid url code now lnk st' h
    rcases updateLink_ok_elim h with ⟨hr, _⟩ | ⟨ex, _, hr, hst, _⟩
    · cases hr
    · constructor
      · rw [Option.some.injEq] at hr
        rw [hr]
      · rw [hst, List.map_map]
        exact List.map_congr_left (fun a _ => patchRow_createdAt id uid url code now a)
  · intro st uid url code now lnk st' h hinv l hl
    rw [(insertLink_ok_elim h).2.1] at hl
    rcases List.mem_append.mp hl with hold | hnew
    · exact hinv l hold
    · rw [List.mem_singleton.mp hnew]
  · intro st id uid url code now r st' h hinv hclock l hl
    rcases updateLink_ok_elim h with ⟨_, hst⟩ | ⟨ex, _, _, hst, _⟩
    · rw [hst] at hl
      exact hinv l hl
    · rw [hst] at hl
      obtain ⟨a, ha, hpa⟩ := List.mem_map.mp hl
      rw [← hpa]
      unfold patchRow
      split
      · exact hclock a ha
      · exact hinv a ha
  · intro st id uid hinv l hl
    rcases deleteLinkById_state st id uid with hst | hst
    · rw [hst] at hl
      exact hinv l hl
    · rw [hst] at hl
      exact hinv l (List.mem_filter.mp hl).1

/-- Lemma: `insertLink` preserves the store invariant: the appended row carries a
fresh short code (the constraint just checked) and a fresh id. -/
theorem storeInv_insertLink {st : Store} {uid url code : String} {now : Nat}
    {lnk : LinkRec} {st' : Store}
    (hinv : StoreInv st) (h : insertLink st uid url code now = .ok (lnk, st')) :
    StoreInv st' := by
  obtain ⟨hcodes, hids, hbelow⟩ := hinv
  obtain ⟨_, hst, hfresh⟩ := insertLink_ok_elim h
  subst hst
  refine ⟨?_, ?_, ?_⟩
  · have : List.Pairwise (fun a b : LinkRec => a.shortCode ≠ b.shortCode)
        (st.links ++ [(⟨st.nextId, uid, code, url, now, now⟩ : LinkRec)]) := by
      rw [List.pairwise_append]
      refine ⟨hcodes, List.pairwise_singleton _ _, fun a ha b hb => ?_⟩
      rw [List.mem_singleton.mp hb]
      exact hfresh a ha
    exact this
  · have : List.Pairwise (fun a b : LinkRec => a.id ≠ b.id)
        (st.links ++ [(⟨st.nextId, uid, code, url, now, now⟩ : LinkRec)]) := by
      rw [List.pairwise_append]
      refine ⟨hids, List.pairwise_singleton _ _, fun a ha b hb => ?_⟩
      rw [List.mem_singleton.mp hb]
      exact Nat.ne_of_lt (hbelow a ha)
    exact this
  · intro l hl
    rcases List.mem_append.mp hl with hold | hnew
    · exact Nat.lt_succ_of_lt (hbelow l hold)
    · rw [List.mem_singleton.mp hnew]
      exact Nat.lt_succ_self _

/-- Lemma: `updateLink` preserves the store invariant: the patch touches only the
row with the given primary key, and the constraint check guarantees the new
short code lives on no other row. -/
theorem storeInv_updateLink {st : Store} {id : Nat} {uid url code : String} {now : Nat}
    {r : Option LinkRec} {st' : Store}
    (hinv : StoreInv st) (h : updateLink st id uid url code now = .ok (r, st')) :
    StoreInv st' := by
  obtain ⟨hcodes, hids, hbelow⟩ := hinv
  rcases updateLink_ok_elim h with ⟨_, hst⟩ | ⟨ex, hfind, _, hst, hguard⟩
  · subst hst
    exact ⟨hcodes, hids, hbelow⟩
  · subst hst
    have hpair : List.Pairwise
        (fun a b : LinkRec => a.shortCode ≠ b.shortCode ∧ a.id ≠ b.id) st.links :=
      List.Pairwise.and hcodes hids
    refine ⟨?_, ?_, ?_⟩
    · have : List.Pairwise (fun a b : LinkRec => a.shortCode ≠ b.shortCode)
          (st.links.map (patchRow id uid url code now)) := by
        rw [List.pairwise_map]
        refine List.Pairwise.imp_of_mem ?_ hpair
        intro a b ha hb hab
        obtain ⟨hc, hi⟩ := hab
        unfold patchRow
        by_cases pa : (a.id == id && a.userId == uid) = true
        · by_cases pb : (b.id == id && b.userId == uid) = true
          · exfalso
            simp only [Bool.and_eq_true, beq_iff_eq] at pa pb
            exact hi (pa.1.trans pb.1.symm)
          · rw [if_pos pa, if_neg pb]
            intro heq
            simp only [Bool.and_eq_true, beq_iff_eq] at pa
            exact hi (pa.1.trans (hguard b hb heq.symm).symm)
        · by_cases pb : (b.id == id && b.userId == uid) = true
          · rw [if_neg pa, if_pos pb]
            intro heq
            simp only [Bool.and_eq_true, beq_iff_eq] at pb
            exact hi ((hguard a ha heq).trans pb.1.symm)
          · rw [if_neg pa, if_neg pb]
            exact hc
      exact this
    · have : List.Pairwise (fun a b : LinkRec => a.id ≠ b.id)
          (st.links.map (patchRow id uid url code now)) := by
        rw [List.pairwise_map]
        refine List.Pairwise.imp_of_mem ?_ hids
        intro a b _ _ hab
        simp only [patchRow_id]
        exact hab
      exact this
    · intro l hl
      obtain ⟨a, ha, hpa⟩ := List.mem_map.mp hl
      have : l.id = a.id := by
        rw [← hpa, patchRow_id]
      rw [this]
      exact hbelow a ha

/-- Lemma: `deleteLinkById` preserves the store invariant: the table only shrinks. -/
theorem storeInv_deleteLinkById (st : Store) (id : Nat) (uid : String)
    (hinv : StoreInv st) : StoreInv (deleteLinkById st id uid).2 := by
  obtain ⟨hcodes, hids, hbelow⟩ := hinv
  rcases deleteLinkById_state st id uid with hst | hst <;> rw [hst]
  · exact ⟨hcodes, hids, hbelow⟩
  · refine ⟨List.Pairwise.filter _ hcodes, List.Pairwise.filter _ hids, ?_⟩
    intro l hl
    exact hbelow l (List.mem_filter.mp hl).1

/-- One data-layer call preserves the store invariant. -/
theorem storeInv_applyOp {st : Store} (hinv : StoreInv st) (op : StoreOp) :
    StoreInv (applyOp st op) := by
  cases op with
  | create uid url code now =>
    simp only [applyOp]
    cases h : insertLink st uid url code now with
    | ok p =>
      obtain ⟨lnk, st'⟩ := p
      exact storeInv_insertLink hinv h
    | error e => exact hinv
  | edit id uid url code now =>
    simp only [applyOp]
    cases h : updateLink st id uid url code now with
    | ok p =>
      obtain ⟨r, st'⟩ := p
      exact storeInv_updateLink hinv h
    | error e => exact hinv
  | remove id uid =>
    exact storeInv_deleteLinkById st id uid hinv

/-- Any sequence of data-layer calls preserves the store invariant. -/
theorem storeInv_runOps {st : Store} (hinv : StoreInv st) (ops : List StoreOp) :
    StoreInv (runOps st ops) := by
  induction ops generalizing st with
  | nil => exact hinv
  | cons op rest ih => exact ih (storeInv_applyOp hinv op)

/-- C1: from any store satisfying the invariant, no sequence of
create/edit/delete calls can produce two rows sharing a `shortCode`: the
pairwise-distinct-codes constraint still holds afterwards, and any two rows
found with the same code are the same row. -/
theorem shortCode_unique_across_all_operations :
    ∀ (st : Store) (ops : List StoreOp), StoreInv st →
      UniqueCodes (runOps st ops).links
      ∧ ∀ a ∈ (runOps st ops).links, ∀ b ∈ (runOps st ops).links,
          a.shortCode = b.shortCode → a = b := by
  intro st ops hinv
  have h := storeInv_runOps hinv ops
  have hp : List.Pairwise (fun a b : LinkRec => a.shortCode ≠ b.shortCode)
      (runOps st ops).links := h.1
  have hsymm : Symmetric (fun a b : LinkRec => a.shortCode ≠ b.shortCode) :=
    fun x y hxy he => hxy he.symm
  refine ⟨h.1, fun a ha b hb hc => ?_⟩
  by_contra hne
  exact List.Pairwise.forall hsymm hp ha hb hne hc

/-- C1 instance: starting empty, a duplicate create and an edit onto a taken
code both bounce off the constraint; distinct codes remain. -/
theorem shortCode_unique_across_all_operations_witness :
    UniqueCodes (runOps ⟨[], 1⟩
      [StoreOp.create "userA" "https://a.com" "dup1" 0,
       StoreOp.create "userB" "https://b.com" "dup1" 1,
       StoreOp.create "userB" "https://b.com" "two2" 2,
       StoreOp.edit 2 "userB" "https://b.com" "dup1" 3]).links :=
  (shortCode_unique_across_all_operations ⟨[], 1⟩
    [StoreOp.create "userA" "https://a.com" "dup1" 0,
     StoreOp.create "userB" "https://b.com" "dup1" 1,
     StoreOp.create "userB" "https://b.com" "two2" 2,
     StoreOp.edit 2 "userB" "https://b.com" "dup1" 3] (by decide)).1

/-- C8: the listing is a permutation of exactly the rows of the caller — a row is
listed iff it is in the store and owned by the given user —, it is ordered
by `updatedAt` descending, and a user owning nothing receives the empty
list as an ordinary result. -/
theorem listing_by_user_ordered :
    ∀ (st : Store) (uid : String),
      (getUserLinks st uid).Perm (st.links.filter (fun l => l.userId == uid))
      ∧ (∀ l, l ∈ getUserLinks st uid ↔ (l ∈ st.links ∧ l.userId = uid))
      ∧ (getUserLinks st uid).Pairwise (fun a b => b.updatedAt ≤ a.updatedAt)
      ∧ ((∀ l ∈ st.links, l.userId ≠ uid) → getUserLinks st uid = []) := by
  intro st uid
  refine ⟨List.mergeSort_perm _ _, ?_, ?_, ?_⟩
  · intro l
    unfold getUserLinks
    rw [List.mem_mergeSort, List.mem_filter]
    simp only [beq_iff_eq]
  · have htrans : ∀ a b c : LinkRec,
        decide (b.updatedAt ≤ a.updatedAt) = true →
        decide (c.updatedAt ≤ b.updatedAt) = true →
        decide (c.updatedAt ≤ a.updatedAt) = true := by
      intro a b c h1 h2
      simp only [decide_eq_true_eq] at h1 h2 ⊢
      exact le_trans h2 h1
    have htotal : ∀ a b : LinkRec,
        (decide (b.updatedAt ≤ a.updatedAt) || decide (a.updatedAt ≤ b.updatedAt)) = true := by
      intro a b
      rcases Nat.le_total b.updatedAt a.updatedAt with h | h <;> simp [h]
    have hs := List.sorted_mergeSort htrans htotal
      (st.links.filter (fun l => l.userId == uid))
    refine List.Pairwise.imp ?_ hs
    intro a b hab
    exact decide_eq_true_eq.mp hab
  · intro hnone
    unfold getUserLinks
    rw [List.filter_eq_nil_iff.mpr (fun a ha => by simp [hnone a ha]), List.mergeSort_nil]

/-- C8 instance: the demo store lists nothing for an unknown user and lists
the single row of user A. -/
theorem listing_by_user_ordered_inst :
    getUserLinks demoStore "nobody" = []
    ∧ (⟨1, "userA", "abc", "https://a.com", 5, 5⟩ : LinkRec) ∈ getUserLinks demoStore "userA" :=
  ⟨(listing_by_user_ordered demoStore "nobody").2.2.2 (by decide),
   ((listing_by_user_ordered demoStore "userA").2.1 _).mpr ⟨by decide, by decide⟩⟩

/-- C9 instance: inserting into the demo store at time 7 yields equal
timestamps; updating link 1 at time 9 refreshes `updatedAt` and keeps every
`createdAt`; the invariant survives a delete. -/
theorem updatedAt_ge_createdAt_inst :
    (⟨3, "userC", "new", "https://c.com", 7, 7⟩ : LinkRec).updatedAt
      = (⟨3, "userC", "new", "https://c.com", 7, 7⟩ : LinkRec).createdAt
    ∧ ∀ l ∈ (deleteLinkById demoStore 1 "userA").2.links,
        l.createdAt ≤ l.updatedAt :=
  ⟨updatedAt_ge_createdAt.1 demoStore "userC" "https://c.com" "new" 7
      ⟨3, "userC", "new", "https://c.com", 7, 7⟩
      ⟨[⟨1, "userA", "abc", "https://a.com", 5, 5⟩,
        ⟨2, "userB", "xyz", "https://b.com", 6, 6⟩,
        ⟨3, "userC", "new", "https://c.com", 7, 7⟩], 4⟩ (by rfl),
   updatedAt_ge_createdAt.2.2.2.2 demoStore 1 "userA" (by decide)⟩
